import Mathlib

/-!
# dbq: a message queue on relational storage

A shallow embedding of `q.go` (package `dbq`): the message record, the
statements `push`, `pull`, `GetMsgByID` and `UpdateMsg` send to the storage
backend, and their effect on the committed contents of one queue's table.

The storage backend (`database/sql` over MySQL/TiDB) is modelled as explicit
state: the committed rows of the queue's table and the number of transactions
that were begun and not yet ended.  Every storage step that can fail in the
source (`Begin`, `Prepare`, `Query`, `Scan`, `Exec`, `Commit`) fails here when
the environment of the call says so, and every reading of `time.Now()` is the
next tick of the environment's clock.
-/

namespace dbq

/-! ## Data model -/

/-- Instants; `0` is the zero value of `time.Time` (`IsZero`). -/
abbrev Time := Nat

/-- A `[]byte`; `none` is the nil slice (SQL `NULL` in a column). -/
abbrev Bytes := Option (List Nat)

/-- `type MsgStatus int`. -/
abbrev MsgStatus := Int

def MsgStatusNil : MsgStatus := 0
def MsgStatusPending : MsgStatus := 1
def MsgStatusDispatched : MsgStatus := 2
def MsgStatusRunning : MsgStatus := 3
def MsgStatusCanceled : MsgStatus := 4
def MsgStatusFinished : MsgStatus := 5
def MsgStatusFailed : MsgStatus := 6

/-- `type Msg struct` (the back pointer `Q` carries no data of the message). -/
structure Msg where
  ID : Int := 0
  Data : Bytes := none
  Status : MsgStatus := 0
  RetCode : Option Int := none
  Progress : Bytes := none
  Ret : Bytes := none
  Error : Bytes := none
  CreatedAt : Time := 0
  ScheduleAt : Time := 0
  UpdatedAt : Time := 0
  deriving DecidableEq, Repr

/-- `func NewMsg(data []byte) *Msg`. -/
def NewMsg (data : Bytes) : Msg :=
  { Data := data, Status := MsgStatusPending }

/-- `type Q struct`. -/
structure Q where
  Name : String
  deriving DecidableEq, Repr

/-- `func (q *Q) TableName() string`. -/
def Q.TableName (q : Q) : String :=
  "dbq_" ++ q.Name

/-- One row of the table built by `Q.Create`: the columns in declaration order. -/
structure Row where
  id : Int
  data : Bytes
  status : Int
  ret_code : Option Int
  progress : Bytes
  ret_data : Bytes
  error_msg : Bytes
  created_at : Time
  schedule_at : Time
  updated_at : Time
  deriving DecidableEq, Repr

/-- The errors an operation can hand back. -/
inductive Err where
  | idRequired
  | duplicateKey
  | noRows
  | storage
  deriving DecidableEq, Repr

/-- How a call ends: it returns normally, returns an error, or panics
(a method called on the nil `*sql.Tx` that a failed `Begin` returns). -/
inductive Outcome (α : Type) where
  | ok : α → Outcome α
  | error : Err → Outcome α
  | panic : Outcome α
  deriving DecidableEq, Repr

/-- The storage backend as one queue sees it. -/
structure DB where
  rows : List Row
  openTx : Nat
  deriving DecidableEq, Repr

/-- What the surroundings decide during one call: the clock and which storage
steps fail.  `execFails i` and `scanFails i` speak of the `i`-th `Exec` and the
`i`-th `Scan` of the call; `nextStops = some i` makes `rows.Next()` report
`false` after `i` rows (a stream error, which only `rows.Err()` would tell
apart from the end of the result set); `dbNow` is the server's
`CURRENT_TIMESTAMP`; `scanOrder` is the order in which the storage engine
meets the rows of the table when it evaluates a `SELECT`, some rearrangement
of them: rows that `ORDER BY` does not tell apart come out in that order. -/
structure Env where
  clock : Nat → Time
  dbNow : Time
  scanOrder : List Row → List Row
  scanOrder_perm : ∀ l, (scanOrder l).Perm l
  beginFails : Bool
  prepareFails : Bool
  queryFails : Bool
  execFails : Nat → Bool
  scanFails : Nat → Bool
  nextStops : Option Nat
  commitFails : Bool

/-- An environment in which no storage step fails and the engine meets the
rows in the order of the table. -/
def Env.healthy (clock : Nat → Time) (dbNow : Time) : Env :=
  { clock := clock, dbNow := dbNow, scanOrder := fun l => l,
    scanOrder_perm := fun l => List.Perm.refl l, beginFails := false, prepareFails := false,
    queryFails := false, execFails := fun _ => false, scanFails := fun _ => false,
    nextStops := none, commitFails := false }

/-- No storage step fails in `env`. -/
def Env.Healthy (env : Env) : Prop :=
  env.beginFails = false ∧ env.prepareFails = false ∧ env.queryFails = false ∧
  (∀ i, env.execFails i = false) ∧ (∀ i, env.scanFails i = false) ∧
  env.nextStops = none ∧ env.commitFails = false

/-! ## Transactions -/

/-- `DB().Begin()` succeeded: one more transaction is open. -/
def DB.begin (db : DB) : DB :=
  { db with openTx := db.openTx + 1 }

/-- `tx.Rollback()`: the transaction ends, the committed rows stay. -/
def DB.rollback (db : DB) : DB :=
  { db with openTx := db.openTx - 1 }

/-- `tx.Commit()` failed: the transaction is over all the same (a `Rollback`
after it finds the transaction done), the committed rows stay. -/
def DB.commitFailed (db : DB) : DB :=
  { db with openTx := db.openTx - 1 }

/-- `tx.Commit()` succeeded: the transaction ends and its rows are the committed ones. -/
def DB.commit (db : DB) (work : List Row) : DB :=
  { rows := work, openTx := db.openTx - 1 }

/-! ## push -/

/-- The three timestamp defaults at the head of the loop body of `push`; `k`
counts the readings of `time.Now()` made so far. -/
def stamp (env : Env) (k : Nat) (msg : Msg) : Msg × Nat :=
  let p1 : Msg × Nat :=
    if msg.CreatedAt = 0 then ({ msg with CreatedAt := env.clock k }, k + 1) else (msg, k)
  let p2 : Msg × Nat :=
    if p1.1.UpdatedAt = 0 then ({ p1.1 with UpdatedAt := env.clock p1.2 }, p1.2 + 1) else p1
  if p2.1.ScheduleAt = 0 then ({ p2.1 with ScheduleAt := env.clock p2.2 }, p2.2 + 1) else p2

/-- The row that the `INSERT` of `push` writes for `msg`: the six listed
columns from the message, the others at their default `NULL`. -/
def insertRow (msg : Msg) : Row :=
  { id := msg.ID, data := msg.Data, status := msg.Status,
    ret_code := none, progress := none, ret_data := none, error_msg := none,
    created_at := msg.CreatedAt, schedule_at := msg.ScheduleAt, updated_at := msg.UpdatedAt }

/-- `stmt.Exec` of the `INSERT` inside a transaction whose rows are `work`:
it fails when the environment fails the `i`-th `Exec` or when the primary key
`id` is already taken. -/
def execInsert (env : Env) (i : Nat) (work : List Row) (r : Row) : Except Err (List Row) :=
  if env.execFails i then .error .storage
  else if work.any (fun x => x.id == r.id) then .error .duplicateKey
  else .ok (work ++ [r])

/-- The loop `for _, msg := range msgs` of `push`: `k` readings of the clock
and `i` executions were made before, `work` are the rows the transaction sees. -/
def pushLoop (env : Env) : List Msg → Nat → Nat → List Row → Except Err (List Row)
  | [], _, _, work => .ok work
  | msg :: rest, k, i, work =>
    let p := stamp env k msg
    if p.1.ID = 0 then .error .idRequired
    else
      match execInsert env i work (insertRow p.1) with
      | .error e => .error e
      | .ok work2 => pushLoop env rest p.2 (i + 1) work2

/-- `func (q *Q) push(msgs []*Msg) error`.  The timestamps the loop writes
into the caller's messages show here in the inserted rows. -/
def Q.push (_q : Q) (msgs : List Msg) (env : Env) (db : DB) : Outcome Unit × DB :=
  if env.beginFails then (.panic, db)
  else
    let db1 := db.begin
    if env.prepareFails then (.error .storage, db1.rollback)
    else
      match pushLoop env msgs 0 0 db.rows with
      | .error e => (.error e, db1)
      | .ok work =>
        if env.commitFails then (.error .storage, db1.commitFailed)
        else (.ok (), db1.commit work)

/-- `func (q *Q) Push(msgs []*Msg) error`. -/
def Q.Push (q : Q) (msgs : List Msg) (env : Env) (db : DB) : Outcome Unit × DB :=
  q.push msgs env db

/-! ## pull -/

/-- The `SELECT` that `pull` formats: the table, the `LIMIT` and the text put
in the last `%s`. -/
structure SelectStmt where
  table : String
  limit : Int
  lockClause : String
  deriving DecidableEq, Repr

/-- The value of `forUpdate` in `pull`. -/
def forUpdate (dryrun : Bool) : String :=
  if !dryrun then "FOR UPDATE" else ""

/-- The statement `pull` passes to `tx.Query`. -/
def pullStmt (q : Q) (limit : Int) (dryrun : Bool) : SelectStmt :=
  { table := q.TableName, limit := limit, lockClause := forUpdate dryrun }

/-- The text `fmt.Sprintf` produces for the statement. -/
def SelectStmt.text (s : SelectStmt) : String :=
  "\n\t\tSELECT \n\t\t\tid, data, status, ret_code, progress, ret_data, error_msg, created_at, schedule_at, updated_at\n\t\tFROM \n\t\t\t" ++
    s.table ++
    "\n\t\tWHERE \n\t\t\tstatus = ? AND schedule_at <= ?\n\t\tORDER BY schedule_at ASC\n\t\tLIMIT " ++
    toString s.limit ++ "\n\t\t" ++ s.lockClause ++ "\n\t\t"

/-- `WHERE status = ? AND schedule_at <= ?` with the arguments
`MsgStatusPending` and `now`. -/
def eligible (now : Time) (r : Row) : Bool :=
  r.status == MsgStatusPending && decide (r.schedule_at ≤ now)

/-- Insert `r` before the first row scheduled no earlier than it. -/
def insertBySchedule (r : Row) : List Row → List Row
  | [] => [r]
  | x :: xs =>
    if r.schedule_at ≤ x.schedule_at then r :: x :: xs else x :: insertBySchedule r xs

/-- `ORDER BY schedule_at ASC` on rows met in the given order; rows with equal
`schedule_at` keep that order. -/
def orderBySchedule : List Row → List Row
  | [] => []
  | r :: rs => insertBySchedule r (orderBySchedule rs)

/-- The result set of the `SELECT` on the rows `work`. -/
def selectRows (env : Env) (s : SelectStmt) (now : Time) (work : List Row) : List Row :=
  (orderBySchedule ((env.scanOrder work).filter (eligible now))).take s.limit.toNat

/-- `tx.Query(stmt, MsgStatusPending, time.Now())`: a negative `LIMIT` is
rejected by the server. -/
def query (env : Env) (s : SelectStmt) (now : Time) (work : List Row) : Except Err (List Row) :=
  if env.queryFails || decide (s.limit < 0) then .error .storage
  else .ok (selectRows env s now work)

/-- `rows.Scan(&msg.ID, ...)` into a fresh `Msg`. -/
def scan (r : Row) : Msg :=
  { ID := r.id, Data := r.data, Status := r.status, RetCode := r.ret_code,
    Progress := r.progress, Ret := r.ret_data, Error := r.error_msg,
    CreatedAt := r.created_at, ScheduleAt := r.schedule_at, UpdatedAt := r.updated_at }

/-- The loop `for rows.Next()` of `pull`, `i` rows having been read before. -/
def scanLoop (env : Env) : List Row → Nat → Except Err (List Msg)
  | [], _ => .ok []
  | r :: rest, i =>
    if env.nextStops = some i then .ok []
    else if env.scanFails i then .error .storage
    else
      match scanLoop env rest (i + 1) with
      | .error e => .error e
      | .ok msgs => .ok (scan r :: msgs)

/-- The `UPDATE ... SET status = ?, updated_at = ? WHERE id = ?` of `pull`. -/
def markDispatched (now : Time) (id : Int) (work : List Row) : List Row :=
  work.map (fun r =>
    if r.id = id then { r with status := MsgStatusDispatched, updated_at := now } else r)

/-- The loop `for _, msg := range msgs` of the live branch of `pull`; the
`i`-th `Exec` reads the clock for the `(i + 1)`-th time in the call. -/
def dispatchLoop (env : Env) : List Msg → Nat → List Row → Except Err (List Row × List Msg)
  | [], _, work => .ok (work, [])
  | msg :: rest, i, work =>
    if env.execFails i then .error .storage
    else
      match dispatchLoop env rest (i + 1) (markDispatched (env.clock (i + 1)) msg.ID work) with
      | .error e => .error e
      | .ok (work2, msgs) => .ok (work2, { msg with Status := MsgStatusDispatched } :: msgs)

/-- `func (q *Q) pull(limit int, dryrun bool) ([]*Msg, error)`. -/
def Q.pull (q : Q) (limit : Int) (dryrun : Bool) (env : Env) (db : DB) :
    Outcome (List Msg) × DB :=
  if env.beginFails then (.panic, db)
  else
    let db1 := db.begin
    match query env (pullStmt q limit dryrun) (env.clock 0) db.rows with
    | .error e => (.error e, db1.rollback)
    | .ok rows =>
      match scanLoop env rows 0 with
      | .error e => (.error e, db1)
      | .ok msgs =>
        if !dryrun then
          match dispatchLoop env msgs 0 db.rows with
          | .error e => (.error e, db1.rollback)
          | .ok (work, msgs2) =>
            if env.commitFails then (.error .storage, db1.commitFailed)
            else (.ok msgs2, db1.commit work)
        else (.ok msgs, db1.rollback)

/-- `func (q *Q) Pull(limit int) ([]*Msg, error)`. -/
def Q.Pull (q : Q) (limit : Int) (env : Env) (db : DB) : Outcome (List Msg) × DB :=
  q.pull limit false env db

/-! ## GetMsgByID and UpdateMsg -/

/-- `func (q *Q) GetMsgByID(id int64) (*Msg, error)`. -/
def Q.GetMsgByID (_q : Q) (id : Int) (env : Env) (db : DB) : Outcome Msg :=
  if env.queryFails then .error .storage
  else
    match db.rows.find? (fun r => r.id == id) with
    | none => .error .noRows
    | some r => if env.scanFails 0 then .error .storage else .ok (scan r)

/-- One `column = ?` item of a `SET` list together with its argument. -/
inductive Assign where
  | ret_code : Int → Assign
  | progress : List Nat → Assign
  | ret_data : List Nat → Assign
  | error_msg : List Nat → Assign
  | status : Int → Assign
  deriving DecidableEq, Repr

/-- The lists `updateFields` and `args` that `UpdateMsg` builds, in the order
of its five tests. -/
def updateFields (msg : Msg) : List Assign :=
  (match msg.RetCode with | some c => [Assign.ret_code c] | none => []) ++
  (match msg.Progress with | some b => [Assign.progress b] | none => []) ++
  (match msg.Ret with | some b => [Assign.ret_data b] | none => []) ++
  (match msg.Error with | some b => [Assign.error_msg b] | none => []) ++
  (if msg.Status ≠ MsgStatusNil then [Assign.status msg.Status] else [])

/-- The effect of one `SET` item on a row. -/
def Assign.apply (r : Row) : Assign → Row
  | .ret_code c => { r with ret_code := some c }
  | .progress b => { r with progress := some b }
  | .ret_data b => { r with ret_data := some b }
  | .error_msg b => { r with error_msg := some b }
  | .status s => { r with status := s }

/-- `UPDATE ... SET <fields> WHERE id = ?` on one row; `updated_at` is
declared `ON UPDATE CURRENT_TIMESTAMP` and follows when the row changes. -/
def updateRow (dbNow : Time) (fields : List Assign) (id : Int) (r : Row) : Row :=
  if r.id = id then
    let r2 := fields.foldl Assign.apply r
    if r2 = r then r else { r2 with updated_at := dbNow }
  else r

/-- `func (q *Q) UpdateMsg(msg *Msg) error`. -/
def Q.UpdateMsg (_q : Q) (msg : Msg) (env : Env) (db : DB) : Outcome Unit × DB :=
  let fields := updateFields msg
  if fields.length = 0 then (.ok (), db)
  else if env.execFails 0 then (.error .storage, db)
  else (.ok (), { db with rows := db.rows.map (updateRow env.dbNow fields msg.ID) })

/-! ## Auxiliary definitions for the statements below -/

/-- A message as a live pull hands it back: `msg.Status = MsgStatusDispatched`. -/
def asDispatched (m : Msg) : Msg :=
  { m with Status := MsgStatusDispatched }

/-- What `pull` does to a scanned message before returning it. -/
def returned (dryrun : Bool) (m : Msg) : Msg :=
  if dryrun then m else asDispatched m

/-- The state after `k` calls of `pull` in dry-run mode, the `j`-th call (from
`0`) running in the environment `envs j`. -/
def dryPullTimes (q : Q) (limit : Int) (envs : Nat → Env) : Nat → DB → DB
  | 0, db => db
  | k + 1, db => (q.pull limit true (envs k) (dryPullTimes q limit envs k db)).2

/-! ## Sample data -/

/-- A queue name. -/
def exQ : Q := { Name := "jobs" }

/-- An environment in which every reading of the clock is `100` and nothing fails. -/
def exEnv : Env := Env.healthy (fun _ => 100) 100

/-- As `exEnv`, but every `Scan` fails. -/
def exScanFailEnv : Env :=
  { clock := fun _ => 100, dbNow := 100, scanOrder := fun l => l,
    scanOrder_perm := fun l => List.Perm.refl l, beginFails := false, prepareFails := false,
    queryFails := false, execFails := fun _ => false, scanFails := fun _ => true,
    nextStops := none, commitFails := false }

/-- A Pending row with the given id and schedule time. -/
def exRow (id : Int) (at_ : Time) : Row :=
  { id := id, data := some [1], status := MsgStatusPending, ret_code := none, progress := none,
    ret_data := none, error_msg := none, created_at := 5, schedule_at := at_, updated_at := 5 }

/-- A queue holding three Pending rows, the last one scheduled after `100`. -/
def exDB : DB := { rows := [exRow 1 50, exRow 2 30, exRow 3 300], openTx := 0 }

/-- A queue of six rows, statuses and times written out: the rows `1`, `2`,
`5` and `6` are Pending and due at `100` (`2` and `6` at the same time), row
`3` is Pending and due at `300`, row `4` is due and already Dispatched. -/
def exDB2 : DB :=
  { rows :=
      [{ id := 1, data := some [1], status := 1, ret_code := none, progress := none,
         ret_data := none, error_msg := none, created_at := 5, schedule_at := 50,
         updated_at := 5 },
       { id := 2, data := some [2], status := 1, ret_code := none, progress := none,
         ret_data := none, error_msg := none, created_at := 5, schedule_at := 30,
         updated_at := 5 },
       { id := 3, data := some [3], status := 1, ret_code := none, progress := none,
         ret_data := none, error_msg := none, created_at := 5, schedule_at := 300,
         updated_at := 5 },
       { id := 4, data := some [4], status := 2, ret_code := none, progress := none,
         ret_data := none, error_msg := none, created_at := 5, schedule_at := 10,
         updated_at := 7 },
       { id := 5, data := some [5], status := 1, ret_code := none, progress := none,
         ret_data := none, error_msg := none, created_at := 5, schedule_at := 40,
         updated_at := 5 },
       { id := 6, data := some [6], status := 1, ret_code := none, progress := none,
         ret_data := none, error_msg := none, created_at := 5, schedule_at := 30,
         updated_at := 5 }],
    openTx := 0 }

/-- What a live pull with limit `2` at time `100` returns from `exDB2`. -/
def exPulled2 : List Msg :=
  [{ ID := 2, Data := some [2], Status := 2, RetCode := none, Progress := none, Ret := none,
     Error := none, CreatedAt := 5, ScheduleAt := 30, UpdatedAt := 5 },
   { ID := 6, Data := some [6], Status := 2, RetCode := none, Progress := none, Ret := none,
     Error := none, CreatedAt := 5, ScheduleAt := 30, UpdatedAt := 5 }]

/-- The empty queue. -/
def emptyDB : DB := { rows := [], openTx := 0 }

/-- The two messages a live pull with limit `2` returns from `exDB`. -/
def exPulled : List Msg :=
  [{ ID := 2, Data := some [1], Status := MsgStatusDispatched, CreatedAt := 5, ScheduleAt := 30,
     UpdatedAt := 5 },
   { ID := 1, Data := some [1], Status := MsgStatusDispatched, CreatedAt := 5, ScheduleAt := 50,
     UpdatedAt := 5 }]

/-- The queue `exDB` after that pull. -/
def exDBAfterPull : DB :=
  { rows := [{ exRow 1 50 with status := MsgStatusDispatched, updated_at := 100 },
             { exRow 2 30 with status := MsgStatusDispatched, updated_at := 100 },
             exRow 3 300],
    openTx := 0 }

end dbq

namespace dbq

/-! ## Ordering by schedule time -/

theorem mem_insertBySchedule (r x : Row) (l : List Row) :
    x ∈ insertBySchedule r l ↔ x = r ∨ x ∈ l := by
  induction l with
  | nil => simp [insertBySchedule]
  | cons y ys ih =>
    unfold insertBySchedule
    split
    · simp
    · simp only [List.mem_cons, ih]
      tauto

theorem length_insertBySchedule (r : Row) (l : List Row) :
    (insertBySchedule r l).length = l.length + 1 := by
  induction l with
  | nil => simp [insertBySchedule]
  | cons y ys ih =>
    unfold insertBySchedule
    split
    · simp
    · simp [ih]

theorem mem_orderBySchedule (x : Row) (l : List Row) : x ∈ orderBySchedule l ↔ x ∈ l := by
  induction l with
  | nil => simp [orderBySchedule]
  | cons y ys ih => simp [orderBySchedule, mem_insertBySchedule, ih]

theorem length_orderBySchedule (l : List Row) : (orderBySchedule l).length = l.length := by
  induction l with
  | nil => simp [orderBySchedule]
  | cons y ys ih => simp [orderBySchedule, length_insertBySchedule, ih]

theorem pairwise_insertBySchedule (r : Row) (l : List Row)
    (h : l.Pairwise (fun a b => a.schedule_at ≤ b.schedule_at)) :
    (insertBySchedule r l).Pairwise (fun a b => a.schedule_at ≤ b.schedule_at) := by
  induction l with
  | nil => simp [insertBySchedule]
  | cons y ys ih =>
    unfold insertBySchedule
    rw [List.pairwise_cons] at h
    split
    · rename_i hle
      refine List.pairwise_cons.2 ⟨?_, List.pairwise_cons.2 h⟩
      intro b hb
      rcases List.mem_cons.1 hb with rfl | hb
      · exact hle
      · exact le_trans hle (h.1 b hb)
    · rename_i hnle
      refine List.pairwise_cons.2 ⟨?_, ih h.2⟩
      intro b hb
      rcases (mem_insertBySchedule r b ys).1 hb with rfl | hb
      · exact le_of_lt (not_le.1 hnle)
      · exact h.1 b hb

theorem pairwise_orderBySchedule (l : List Row) :
    (orderBySchedule l).Pairwise (fun a b => a.schedule_at ≤ b.schedule_at) := by
  induction l with
  | nil => simp [orderBySchedule]
  | cons y ys ih => exact pairwise_insertBySchedule y _ ih

theorem pairwise_take_drop {α : Type} (R : α → α → Prop) (l : List α) (h : l.Pairwise R)
    (n : Nat) : ∀ a ∈ l.take n, ∀ b ∈ l.drop n, R a b := by
  have h2 : (l.take n ++ l.drop n).Pairwise R := by
    rw [List.take_append_drop]
    exact h
  exact (List.pairwise_append.1 h2).2.2

/-! ## The loops of pull -/

theorem scanLoop_ok (env : Env) (rows : List Row) (i : Nat) (msgs : List Msg)
    (h : scanLoop env rows i = .ok msgs) : ∃ n, msgs = (rows.take n).map scan := by
  induction rows generalizing i msgs with
  | nil =>
    simp only [scanLoop, Except.ok.injEq] at h
    exact ⟨0, by simp [← h]⟩
  | cons r rest ih =>
    unfold scanLoop at h
    split at h
    · simp only [Except.ok.injEq] at h
      exact ⟨0, by simp [← h]⟩
    · split at h
      · simp at h
      · split at h
        · simp at h
        · rename_i ms hms
          simp only [Except.ok.injEq] at h
          obtain ⟨n, hn⟩ := ih (i + 1) ms hms
          exact ⟨n + 1, by simp [← h, hn]⟩

theorem scanLoop_healthy (env : Env) (rows : List Row) (i : Nat)
    (hnext : env.nextStops = none) (hscan : ∀ j, env.scanFails j = false) :
    scanLoop env rows i = .ok (rows.map scan) := by
  induction rows generalizing i with
  | nil => simp [scanLoop]
  | cons r rest ih => simp [scanLoop, hnext, hscan, ih]

theorem dispatchLoop_ok_msgs (env : Env) (msgs : List Msg) (i : Nat) (work work2 : List Row)
    (msgs2 : List Msg) (h : dispatchLoop env msgs i work = .ok (work2, msgs2)) :
    msgs2 = msgs.map asDispatched := by
  induction msgs generalizing i work work2 msgs2 with
  | nil =>
    simp only [dispatchLoop, Except.ok.injEq, Prod.mk.injEq] at h
    simp [← h.2]
  | cons m rest ih =>
    unfold dispatchLoop at h
    split at h
    · simp at h
    · split at h
      · simp at h
      · rename_i w ms hms
        simp only [Except.ok.injEq, Prod.mk.injEq] at h
        have := ih _ _ _ _ hms
        simp [← h.2, this, asDispatched]

theorem dispatchLoop_healthy (env : Env) (msgs : List Msg) (i : Nat) (work : List Row)
    (hexec : ∀ j, env.execFails j = false) :
    ∃ work2, dispatchLoop env msgs i work = .ok (work2, msgs.map asDispatched) := by
  induction msgs generalizing i work with
  | nil => exact ⟨work, by simp [dispatchLoop]⟩
  | cons m rest ih =>
    obtain ⟨w, hw⟩ := ih (i + 1) (markDispatched (env.clock (i + 1)) m.ID work)
    exact ⟨w, by simp [dispatchLoop, hexec, hw, asDispatched]⟩

end dbq

namespace dbq

theorem markDispatched_eq_map (now : Time) (id : Int) (work : List Row) :
    markDispatched now id work = work.map (fun r =>
      if r.id = id then { r with status := MsgStatusDispatched, updated_at := now } else r) := rfl

/-- The rows after the update loop of a live pull: every row is mapped by one
function that sets the status of the rows with a listed id and leaves the
other rows as they are. -/
theorem dispatchLoop_ok_rows (env : Env) (msgs : List Msg) (i : Nat) (work work2 : List Row)
    (msgs2 : List Msg) (h : dispatchLoop env msgs i work = .ok (work2, msgs2)) :
    ∃ f : Row → Row, work2 = work.map f ∧
      ∀ r, (f r).id = r.id ∧
        (r.id ∈ msgs.map (fun m => m.ID) → (f r).status = MsgStatusDispatched) ∧
        (r.id ∉ msgs.map (fun m => m.ID) → f r = r) := by
  induction msgs generalizing i work work2 msgs2 with
  | nil =>
    simp only [dispatchLoop, Except.ok.injEq, Prod.mk.injEq] at h
    exact ⟨id, by simp [← h.1], fun r => by simp⟩
  | cons m rest ih =>
    unfold dispatchLoop at h
    split at h
    · simp at h
    · split at h
      · simp at h
      · rename_i w ms hms
        simp only [Except.ok.injEq, Prod.mk.injEq] at h
        obtain ⟨f, hf, hP⟩ := ih _ _ _ _ hms
        refine ⟨fun r => f (if r.id = m.ID then
          { r with status := MsgStatusDispatched, updated_at := env.clock (i + 1) } else r), ?_, ?_⟩
        · rw [← h.1, hf, markDispatched_eq_map, List.map_map]
          rfl
        · intro r
          beta_reduce
          by_cases hr : r.id = m.ID
          · have hP2 := hP { r with status := MsgStatusDispatched, updated_at := env.clock (i + 1) }
            rw [if_pos hr]
            refine ⟨hP2.1, fun _ => ?_, fun hn => ?_⟩
            · by_cases hin : m.ID ∈ rest.map (fun m => m.ID)
              · exact hP2.2.1 (by rw [← hr] at hin; exact hin)
              · rw [hP2.2.2 (by rw [← hr] at hin; exact hin)]
            · exact absurd (by simp [hr]) hn
          · rw [if_neg hr]
            simp only [List.map_cons, List.mem_cons, hr, false_or]
            exact hP r

theorem returned_true : returned true = fun m => m := by
  funext m
  simp [returned]

theorem returned_false : returned false = asDispatched := by
  funext m
  simp [returned]

/-- The shape of every successful `pull`: the result is a leading part of the
result set of the `SELECT`, scanned, with the status set in live mode. -/
theorem pull_ok_shape (q : Q) (L : Int) (dryrun : Bool) (env : Env) (db : DB) (msgs : List Msg)
    (h : (q.pull L dryrun env db).1 = .ok msgs) :
    0 ≤ L ∧ ∃ n, msgs =
      (((selectRows env (pullStmt q L dryrun) (env.clock 0) db.rows).take n).map scan).map
        (returned dryrun) := by
  unfold Q.pull at h
  split at h
  · simp at h
  · split at h
    · simp at h
    · rename_i rows hq
      have hL : 0 ≤ L ∧ rows = selectRows env (pullStmt q L dryrun) (env.clock 0) db.rows := by
        unfold query at hq
        split at hq
        · simp at hq
        · rename_i hc
          simp only [Except.ok.injEq] at hq
          simp only [pullStmt, Bool.or_eq_true, decide_eq_true_eq, not_or, not_lt] at hc
          exact ⟨hc.2, hq.symm⟩
      refine ⟨hL.1, ?_⟩
      split at h
      · simp at h
      · rename_i ms hms
        obtain ⟨n, hn⟩ := scanLoop_ok _ _ _ _ hms
        rw [hL.2] at hn
        cases dryrun with
        | true =>
          simp only [Bool.not_true, Bool.false_eq_true, if_false, Outcome.ok.injEq] at h
          exact ⟨n, by rw [← h, hn, returned_true, List.map_id']⟩
        | false =>
          simp only [Bool.not_false, if_true] at h
          split at h
          · simp at h
          · rename_i w ms2 hd
            split at h
            · simp at h
            · simp only [Outcome.ok.injEq] at h
              have := dispatchLoop_ok_msgs _ _ _ _ _ _ hd
              refine ⟨n, ?_⟩
              rw [← h, this, hn, returned_false]

/-- With no storage failure and a limit that is not negative, `pull` returns
the whole result set of the `SELECT`. -/
theorem pull_healthy (q : Q) (L : Int) (dryrun : Bool) (env : Env) (db : DB)
    (hL : 0 ≤ L) (henv : env.Healthy) :
    (q.pull L dryrun env db).1 = .ok
      (((selectRows env (pullStmt q L dryrun) (env.clock 0) db.rows).map scan).map
        (returned dryrun)) := by
  obtain ⟨hb, _, hq, hexec, hscan, hnext, hcommit⟩ := henv
  have hnl : ¬ L < 0 := not_lt.2 hL
  unfold Q.pull
  simp only [hb, Bool.false_eq_true, if_false, query, hq, Bool.false_or, pullStmt,
    decide_eq_true_eq, hnl]
  rw [scanLoop_healthy env _ 0 hnext hscan]
  cases dryrun with
  | true => simp [returned_true]
  | false =>
    obtain ⟨w, hw⟩ := dispatchLoop_healthy env
      ((selectRows env { table := q.TableName, limit := L, lockClause := forUpdate false }
        (env.clock 0) db.rows).map scan) 0 db.rows hexec
    simp only [Bool.not_false, if_true, hw, hcommit, Bool.false_eq_true, if_false]
    simp [returned_false]

end dbq

namespace dbq

theorem eligible_iff (now : Time) (r : Row) :
    eligible now r = true ↔ r.status = MsgStatusPending ∧ r.schedule_at ≤ now := by
  simp [eligible]

theorem returned_scan_schedule (dryrun : Bool) (r : Row) :
    (returned dryrun (scan r)).ScheduleAt = r.schedule_at := by
  cases dryrun <;> simp [returned, asDispatched, scan]

theorem returned_scan_id (dryrun : Bool) (r : Row) : (returned dryrun (scan r)).ID = r.id := by
  cases dryrun <;> simp [returned, asDispatched, scan]

theorem returned_scan_pending (dryrun : Bool) (r : Row) (h : r.status = MsgStatusPending) :
    scan r = { returned dryrun (scan r) with Status := MsgStatusPending } := by
  cases dryrun <;> simp [returned, asDispatched, scan, h]

theorem perm_insertBySchedule (r : Row) (l : List Row) :
    (insertBySchedule r l).Perm (r :: l) := by
  induction l with
  | nil => exact List.Perm.refl _
  | cons y ys ih =>
    unfold insertBySchedule
    split
    · exact List.Perm.refl _
    · exact (List.Perm.cons y ih).trans (List.Perm.swap r y ys)

theorem perm_orderBySchedule (l : List Row) : (orderBySchedule l).Perm l := by
  induction l with
  | nil => exact List.Perm.refl _
  | cons y ys ih => exact (perm_insertBySchedule y _).trans (List.Perm.cons y ih)

/-- The `WHERE` clause of the model is the condition written out. -/
theorem eligible_eq (now : Time) :
    eligible now = fun r => decide (r.status = MsgStatusPending ∧ r.schedule_at ≤ now) := by
  funext r
  rw [Bool.eq_iff_iff, eligible_iff]
  simp

/-- Any leading part of the ordered eligible rows splits the eligible rows of
the table, counted with repetition, into the rows read and the rows left out;
every row read is scheduled no later than every row left out, and the
returned messages are the rows read, column by column, one message per row. -/
theorem leading_part_split (env : Env) (dryrun : Bool) (now : Time) (rows : List Row)
    (k : Nat) :
    ∃ sel rest, (sel ++ rest).Perm
        (rows.filter (fun r => decide (r.status = MsgStatusPending ∧ r.schedule_at ≤ now))) ∧
      List.Forall₂ (fun r m =>
          m.ID = r.id ∧ m.Data = r.data ∧
          m.Status = (if dryrun then MsgStatusPending else MsgStatusDispatched) ∧
          m.RetCode = r.ret_code ∧ m.Progress = r.progress ∧ m.Ret = r.ret_data ∧
          m.Error = r.error_msg ∧ m.CreatedAt = r.created_at ∧
          m.ScheduleAt = r.schedule_at ∧ m.UpdatedAt = r.updated_at)
        sel ((((orderBySchedule ((env.scanOrder rows).filter (eligible now))).take k).map
          scan).map (returned dryrun)) ∧
      ∀ x ∈ sel, ∀ r ∈ rest, x.schedule_at ≤ r.schedule_at := by
  refine ⟨(orderBySchedule ((env.scanOrder rows).filter (eligible now))).take k,
    (orderBySchedule ((env.scanOrder rows).filter (eligible now))).drop k, ?_, ?_, ?_⟩
  · rw [List.take_append_drop, ← eligible_eq]
    exact (perm_orderBySchedule _).trans ((env.scanOrder_perm rows).filter (eligible now))
  · rw [List.map_map, List.forall₂_map_right_iff, List.forall₂_same]
    intro r hr
    have hr2 := (mem_orderBySchedule r _).1 (List.mem_of_mem_take hr)
    rw [List.mem_filter, eligible_iff] at hr2
    cases dryrun <;> simp [returned, asDispatched, scan, hr2.2.1]
  · exact pairwise_take_drop _ _ (pairwise_orderBySchedule _) k

/-- What holds of any leading part of the ordered eligible rows, scanned and
returned. -/
theorem leading_part_props (dryrun : Bool) (now : Time) (rows : List Row) (k : Nat) :
    let msgs := (((orderBySchedule (rows.filter (eligible now))).take k).map scan).map
      (returned dryrun)
    (∀ m ∈ msgs, ∃ r ∈ rows, r.status = MsgStatusPending ∧ r.schedule_at ≤ now ∧
        scan r = { m with Status := MsgStatusPending }) ∧
    msgs.Pairwise (fun a b => a.ScheduleAt ≤ b.ScheduleAt) ∧
    (∀ r ∈ rows, r.status = MsgStatusPending → r.schedule_at ≤ now →
        r.id ∉ msgs.map (fun m => m.ID) → ∀ m ∈ msgs, m.ScheduleAt ≤ r.schedule_at) := by
  intro msgs
  have hsorted := pairwise_orderBySchedule (rows.filter (eligible now))
  refine ⟨?_, ?_, ?_⟩
  · intro m hm
    simp only [msgs, List.mem_map, exists_exists_and_eq_and] at hm
    obtain ⟨r, hr, rfl⟩ := hm
    have hr2 := (mem_orderBySchedule r _).1 (List.mem_of_mem_take hr)
    rw [List.mem_filter, eligible_iff] at hr2
    exact ⟨r, hr2.1, hr2.2.1, hr2.2.2, returned_scan_pending dryrun r hr2.2.1⟩
  · simp only [msgs, List.map_map]
    rw [List.pairwise_map]
    simp only [Function.comp_apply, returned_scan_schedule]
    exact hsorted.sublist (List.take_sublist _ _)
  · intro r hr hst hsch hnot m hm
    simp only [msgs, List.mem_map, exists_exists_and_eq_and] at hm
    obtain ⟨x, hx, rfl⟩ := hm
    rw [returned_scan_schedule]
    have hrS : r ∈ orderBySchedule (rows.filter (eligible now)) := by
      rw [mem_orderBySchedule, List.mem_filter, eligible_iff]
      exact ⟨hr, hst, hsch⟩
    rw [← List.take_append_drop k (orderBySchedule (rows.filter (eligible now))),
      List.mem_append] at hrS
    rcases hrS with hin | hout
    · exfalso
      apply hnot
      simp only [msgs, List.map_map, List.mem_map, Function.comp_apply]
      exact ⟨r, hin, returned_scan_id dryrun r⟩
    · exact pairwise_take_drop _ _ hsorted k x hx r hout

/-- C1. For every queue state, every reading `now` of the clock and every limit
`L ≥ 0`, in live and in dry-run mode: when no storage step fails, `pull`
returns exactly `min(L, n)` messages, `n` being the number of stored rows with
status Pending and `schedule_at ≤ now`; and whenever `pull` returns messages,
they are at most `min(L, n)`, each of them is the scan of a stored row that
was Pending with `schedule_at ≤ now` (up to the status a live pull sets), they
come in non-decreasing `schedule_at`, no eligible row whose id is not among
them is scheduled strictly earlier than a returned one, and the stored rows
that are Pending with `schedule_at ≤ now`, counted with repetition, split into
the rows read and the rows left out so that the returned messages are the
rows read, one message per row and column by column (the status being Pending
in dry-run mode and Dispatched in live mode), and every row read is scheduled
no later than every row left out. -/
theorem pull_returns_oldest_eligible (q : Q) (L : Int) (dryrun : Bool) (env : Env) (db : DB)
    (hL : 0 ≤ L) :
    (env.Healthy → ∃ msgs, (q.pull L dryrun env db).1 = .ok msgs ∧
      msgs.length = min L.toNat (db.rows.filter (fun r =>
        decide (r.status = MsgStatusPending ∧ r.schedule_at ≤ env.clock 0))).length) ∧
    ∀ msgs, (q.pull L dryrun env db).1 = .ok msgs →
      msgs.length ≤ min L.toNat (db.rows.filter (fun r =>
        decide (r.status = MsgStatusPending ∧ r.schedule_at ≤ env.clock 0))).length ∧
      (∀ m ∈ msgs, ∃ r ∈ db.rows, r.status = MsgStatusPending ∧
        r.schedule_at ≤ env.clock 0 ∧ scan r = { m with Status := MsgStatusPending }) ∧
      msgs.Pairwise (fun a b => a.ScheduleAt ≤ b.ScheduleAt) ∧
      (∀ r ∈ db.rows, r.status = MsgStatusPending → r.schedule_at ≤ env.clock 0 →
        r.id ∉ msgs.map (fun m => m.ID) → ∀ m ∈ msgs, m.ScheduleAt ≤ r.schedule_at) ∧
      ∃ sel rest, (sel ++ rest).Perm (db.rows.filter (fun r =>
          decide (r.status = MsgStatusPending ∧ r.schedule_at ≤ env.clock 0))) ∧
        List.Forall₂ (fun r m =>
            m.ID = r.id ∧ m.Data = r.data ∧
            m.Status = (if dryrun then MsgStatusPending else MsgStatusDispatched) ∧
            m.RetCode = r.ret_code ∧ m.Progress = r.progress ∧ m.Ret = r.ret_data ∧
            m.Error = r.error_msg ∧ m.CreatedAt = r.created_at ∧
            m.ScheduleAt = r.schedule_at ∧ m.UpdatedAt = r.updated_at) sel msgs ∧
        ∀ x ∈ sel, ∀ r ∈ rest, x.schedule_at ≤ r.schedule_at := by
  have hperm := env.scanOrder_perm db.rows
  rw [← eligible_eq]
  have hlen : ((env.scanOrder db.rows).filter (eligible (env.clock 0))).length =
      (db.rows.filter (eligible (env.clock 0))).length :=
    (hperm.filter (eligible (env.clock 0))).length_eq
  constructor
  · intro henv
    refine ⟨_, pull_healthy q L dryrun env db hL henv, ?_⟩
    simp [selectRows, pullStmt, length_orderBySchedule, hlen]
  · intro msgs h
    obtain ⟨_, n, hn⟩ := pull_ok_shape q L dryrun env db msgs h
    simp only [selectRows, pullStmt, List.take_take] at hn
    have hp := leading_part_props dryrun (env.clock 0) (env.scanOrder db.rows) (min n L.toNat)
    have hs := leading_part_split env dryrun (env.clock 0) db.rows (min n L.toNat)
    simp only at hp
    rw [← hn] at hp hs
    rw [← eligible_eq] at hs
    obtain ⟨hp1, hp2, hp3⟩ := hp
    refine ⟨?_, ?_, hp2, ?_, hs⟩
    · rw [hn]
      simp only [List.length_map, List.length_take, length_orderBySchedule, hlen]
      omega
    · intro m hm
      obtain ⟨r, hr, hrest⟩ := hp1 m hm
      exact ⟨r, hperm.mem_iff.1 hr, hrest⟩
    · intro r hr
      exact hp3 r (hperm.mem_iff.2 hr)

end dbq

namespace dbq

/-- A successful live `pull` committed the rows its update loop produced for
the messages it read. -/
theorem pull_live_ok (q : Q) (L : Int) (env : Env) (db db2 : DB) (msgs : List Msg)
    (h : q.pull L false env db = (.ok msgs, db2)) :
    ∃ ms, dispatchLoop env ms 0 db.rows = .ok (db2.rows, msgs) := by
  unfold Q.pull at h
  split at h
  · simp at h
  · split at h
    · simp at h
    · split at h
      · simp at h
      · rename_i ms _
        simp only [Bool.not_false, if_true] at h
        split at h
        · simp at h
        · rename_i w ms2 hd
          split at h
          · simp at h
          · simp only [Prod.mk.injEq, Outcome.ok.injEq] at h
            refine ⟨ms, ?_⟩
            rw [hd, ← h.1, ← h.2]
            rfl

theorem map_id_asDispatched (ms : List Msg) :
    (ms.map asDispatched).map (fun m => m.ID) = ms.map (fun m => m.ID) := by
  simp [asDispatched, Function.comp_def]

/-- C2. When a live `pull` succeeds, every returned message has status
Dispatched, every stored row with a returned id has status Dispatched after
the commit, and the stored rows are position by position the former ones,
with the same id, and unchanged wherever the id was not returned. -/
theorem live_pull_dispatches_exactly_returned (q : Q) (L : Int) (env : Env) (db db2 : DB)
    (msgs : List Msg) (h : q.pull L false env db = (.ok msgs, db2)) :
    (∀ m ∈ msgs, m.Status = MsgStatusDispatched) ∧
    (∀ r2 ∈ db2.rows, r2.id ∈ msgs.map (fun m => m.ID) → r2.status = MsgStatusDispatched) ∧
    List.Forall₂ (fun r r2 => r2.id = r.id ∧ (r.id ∉ msgs.map (fun m => m.ID) → r2 = r))
      db.rows db2.rows := by
  obtain ⟨ms, hd⟩ := pull_live_ok q L env db db2 msgs h
  have hmsgs := dispatchLoop_ok_msgs _ _ _ _ _ _ hd
  obtain ⟨f, hf, hP⟩ := dispatchLoop_ok_rows _ _ _ _ _ _ hd
  have hids : msgs.map (fun m => m.ID) = ms.map (fun m => m.ID) := by
    rw [hmsgs, map_id_asDispatched]
  rw [hids]
  refine ⟨?_, ?_, ?_⟩
  · intro m hm
    rw [hmsgs, List.mem_map] at hm
    obtain ⟨x, _, rfl⟩ := hm
    rfl
  · intro r2 hr2 hin
    rw [hf, List.mem_map] at hr2
    obtain ⟨r, _, rfl⟩ := hr2
    by_cases hr : r.id ∈ ms.map (fun m => m.ID)
    · exact (hP r).2.1 hr
    · rw [(hP r).2.2 hr] at hin
      exact absurd hin hr
  · rw [hf, List.forall₂_map_right_iff, List.forall₂_same]
    intro r _
    exact ⟨(hP r).1, (hP r).2.2⟩

/-- One dry-run `pull` leaves the committed rows as they were, however it ends. -/
theorem pull_dry_rows (q : Q) (L : Int) (env : Env) (db : DB) :
    (q.pull L true env db).2.rows = db.rows := by
  unfold Q.pull
  split
  · rfl
  · split
    · rfl
    · split
      · rfl
      · rfl

/-- C6. After any number `k` of calls of `pull` in dry-run mode, whatever the
limit, the clock and the storage failures of each call, the committed rows of
the queue, and so the status of every stored message, are those before the
first call. -/
theorem dry_pulls_leave_rows (q : Q) (L : Int) (envs : Nat → Env) (k : Nat) (db : DB) :
    (dryPullTimes q L envs k db).rows = db.rows ∧
    (dryPullTimes q L envs k db).rows.map (fun r => (r.id, r.status)) =
      db.rows.map (fun r => (r.id, r.status)) := by
  have h : (dryPullTimes q L envs k db).rows = db.rows := by
    induction k with
    | zero => rfl
    | succ k ih =>
      show (q.pull L true (envs k) (dryPullTimes q L envs k db)).2.rows = db.rows
      rw [pull_dry_rows, ih]
  exact ⟨h, by rw [h]⟩

end dbq

namespace dbq

/-! ## push -/

theorem stamp_ID (env : Env) (k : Nat) (m : Msg) : (stamp env k m).1.ID = m.ID := by
  unfold stamp
  dsimp only
  split_ifs <;> rfl

theorem stamp_Status (env : Env) (k : Nat) (m : Msg) : (stamp env k m).1.Status = m.Status := by
  unfold stamp
  dsimp only
  split_ifs <;> rfl

theorem stamp_Data (env : Env) (k : Nat) (m : Msg) : (stamp env k m).1.Data = m.Data := by
  unfold stamp
  dsimp only
  split_ifs <;> rfl

theorem execInsert_ok_iff (env : Env) (i : Nat) (work : List Row) (r : Row) (work2 : List Row) :
    execInsert env i work r = .ok work2 ↔
      env.execFails i = false ∧ (∀ x ∈ work, x.id ≠ r.id) ∧ work2 = work ++ [r] := by
  unfold execInsert
  split
  · rename_i h1
    simp [h1]
  · rename_i h1
    simp only [Bool.not_eq_true] at h1
    split
    · rename_i h2
      simp only [List.any_eq_true, beq_iff_eq] at h2
      obtain ⟨x, hx, hxr⟩ := h2
      simp only [reduceCtorEq, false_iff, not_and]
      intro _ h
      exact absurd hxr (h x hx)
    · rename_i h2
      simp only [List.any_eq_true, beq_iff_eq, not_exists, not_and] at h2
      simp only [Except.ok.injEq]
      constructor
      · intro h
        exact ⟨h1, h2, h.symm⟩
      · intro h
        exact h.2.2.symm

/-- The rows a successful run of the loop of `push` leaves in the transaction:
the rows it started from, followed by one inserted row per message, in order. -/
theorem pushLoop_ok (env : Env) (msgs : List Msg) (k i : Nat) (work work2 : List Row)
    (h : pushLoop env msgs k i work = .ok work2) :
    ∃ new, work2 = work ++ new ∧
      List.Forall₂ (fun m r => ∃ j, r = insertRow (stamp env j m).1) msgs new := by
  induction msgs generalizing k i work with
  | nil =>
    simp only [pushLoop, Except.ok.injEq] at h
    exact ⟨[], by simp [h], List.Forall₂.nil⟩
  | cons m rest ih =>
    unfold pushLoop at h
    simp only at h
    split at h
    · simp at h
    · split at h
      · simp at h
      · rename_i w hw
        rw [execInsert_ok_iff] at hw
        obtain ⟨new, hnew, hall⟩ := ih _ _ _ h
        refine ⟨insertRow (stamp env k m).1 :: new, ?_, List.Forall₂.cons ⟨k, rfl⟩ hall⟩
        rw [hnew, hw.2.2]
        simp

/-- When the loop of `push` runs to its end: no `Exec` fails, no id is zero,
and no id is taken twice, in the batch or by a row already there. -/
theorem pushLoop_ok_iff (env : Env) (msgs : List Msg) (k i : Nat) (work : List Row) :
    (∃ work2, pushLoop env msgs k i work = .ok work2) ↔
      (∀ j, j < msgs.length → env.execFails (i + j) = false) ∧
      (∀ m ∈ msgs, m.ID ≠ 0) ∧
      (msgs.map (fun m => m.ID)).Nodup ∧
      (∀ m ∈ msgs, ∀ r ∈ work, r.id ≠ m.ID) := by
  induction msgs generalizing k i work with
  | nil => simp [pushLoop]
  | cons m rest ih =>
    unfold pushLoop
    simp only
    by_cases hz : (stamp env k m).1.ID = 0
    · simp only [hz, if_true]
      rw [stamp_ID] at hz
      constructor
      · intro h
        obtain ⟨_, h⟩ := h
        simp at h
      · intro h
        exact absurd hz (h.2.1 m (List.mem_cons_self _ _))
    · simp only [hz, if_false]
      rw [stamp_ID] at hz
      cases hx : execInsert env i work (insertRow (stamp env k m).1) with
      | error e =>
        simp only [false_iff, not_and, reduceCtorEq, exists_false]
        intro hexec _ hnodup hfresh
        have hne : ¬ ∃ w, execInsert env i work (insertRow (stamp env k m).1) = .ok w := by
          rw [hx]
          simp
        apply hne
        refine ⟨_, (execInsert_ok_iff _ _ _ _ _).2 ⟨?_, ?_, rfl⟩⟩
        · simpa using hexec 0 (by simp)
        · intro x hxw
          simp only [insertRow, stamp_ID]
          exact hfresh m (List.mem_cons_self _ _) x hxw
      | ok w =>
        simp only
        rw [execInsert_ok_iff] at hx
        obtain ⟨hx1, hx2, hx3⟩ := hx
        simp only [insertRow, stamp_ID] at hx2
        rw [ih, hx3]
        simp only [List.length_cons, List.mem_cons, List.map_cons, List.nodup_cons,
          List.mem_append, List.not_mem_nil, or_false, forall_eq_or_imp, List.mem_map,
          not_exists, not_and]
        constructor
        · rintro ⟨h1, h2, h3, h4⟩
          refine ⟨?_, ⟨hz, h2⟩, ⟨?_, h3⟩, hx2, ?_⟩
          · intro j hj
            cases j with
            | zero => simpa using hx1
            | succ j =>
              have := h1 j (by omega)
              rw [show i + (j + 1) = i + 1 + j by omega]
              exact this
          · intro x hx hid
            have := h4 x hx (insertRow (stamp env k m).1) (Or.inr rfl)
            simp only [insertRow, stamp_ID] at this
            exact this hid.symm
          · intro x hx r hr
            exact h4 x hx r (Or.inl hr)
        · rintro ⟨h1, ⟨_, h2⟩, ⟨h3a, h3⟩, _, h4⟩
          refine ⟨?_, h2, h3, ?_⟩
          · intro j hj
            have := h1 (j + 1) (by omega)
            rw [show i + 1 + j = i + (j + 1) by omega]
            exact this
          · intro x hx r hr
            rcases hr with hr | hr
            · exact h4 x hx r hr
            · rw [hr]
              simp only [insertRow, stamp_ID]
              intro hid
              exact h3a x hx hid.symm

end dbq

namespace dbq

theorem push_ok_iff_loop (q : Q) (msgs : List Msg) (env : Env) (db : DB) :
    (q.push msgs env db).1 = .ok () ↔
      env.beginFails = false ∧ env.prepareFails = false ∧ env.commitFails = false ∧
      ∃ w, pushLoop env msgs 0 0 db.rows = .ok w := by
  unfold Q.push
  cases hb : env.beginFails <;> cases hp : env.prepareFails <;> cases hc : env.commitFails <;>
    cases hl : pushLoop env msgs 0 0 db.rows <;> simp

theorem push_ok_rows (q : Q) (msgs : List Msg) (env : Env) (db : DB)
    (h : (q.push msgs env db).1 = .ok ()) :
    pushLoop env msgs 0 0 db.rows = .ok (q.push msgs env db).2.rows := by
  unfold Q.push at h ⊢
  cases hb : env.beginFails <;> cases hp : env.prepareFails <;> cases hc : env.commitFails <;>
    cases hl : pushLoop env msgs 0 0 db.rows <;> simp_all [DB.commit]

theorem push_not_ok_rows (q : Q) (msgs : List Msg) (env : Env) (db : DB)
    (h : (q.push msgs env db).1 ≠ .ok ()) : (q.push msgs env db).2.rows = db.rows := by
  unfold Q.push at h ⊢
  cases hb : env.beginFails <;> cases hp : env.prepareFails <;> cases hc : env.commitFails <;>
    cases hl : pushLoop env msgs 0 0 db.rows <;>
    simp_all [DB.commit, DB.begin, DB.rollback, DB.commitFailed]

theorem push_error_of_not_ok (q : Q) (msgs : List Msg) (env : Env) (db : DB)
    (hb : env.beginFails = false) (h : (q.push msgs env db).1 ≠ .ok ()) :
    ∃ e, (q.push msgs env db).1 = .error e := by
  unfold Q.push at h ⊢
  cases hp : env.prepareFails <;> cases hc : env.commitFails <;>
    cases hl : pushLoop env msgs 0 0 db.rows <;> simp_all

/-- C4. One call of `push` either succeeds, and then the committed rows are
the prior rows followed by one row for every message of the batch, in order
(the row written from the message after its timestamps were defaulted), or it
does not succeed, and then the committed rows are exactly the prior rows.  It
succeeds exactly when no storage step fails, no id of the batch is zero, and
no id occurs twice in the batch or is the id of a row already stored. -/
theorem push_all_or_nothing (q : Q) (msgs : List Msg) (env : Env) (db : DB) :
    (((q.push msgs env db).1 = .ok () ∧
        ∃ new, (q.push msgs env db).2.rows = db.rows ++ new ∧
          List.Forall₂ (fun m r => ∃ j, r = insertRow (stamp env j m).1) msgs new) ∨
      ((q.push msgs env db).1 ≠ .ok () ∧ (q.push msgs env db).2.rows = db.rows)) ∧
    ((q.push msgs env db).1 = .ok () ↔
      env.beginFails = false ∧ env.prepareFails = false ∧
      (∀ j, j < msgs.length → env.execFails j = false) ∧ env.commitFails = false ∧
      (∀ m ∈ msgs, m.ID ≠ 0) ∧ (msgs.map (fun m => m.ID)).Nodup ∧
      (∀ m ∈ msgs, ∀ r ∈ db.rows, r.id ≠ m.ID)) := by
  constructor
  · by_cases h : (q.push msgs env db).1 = .ok ()
    · exact Or.inl ⟨h, pushLoop_ok env msgs 0 0 db.rows _ (push_ok_rows q msgs env db h)⟩
    · exact Or.inr ⟨h, push_not_ok_rows q msgs env db h⟩
  · rw [push_ok_iff_loop, pushLoop_ok_iff]
    simp only [Nat.zero_add]
    tauto

/-- C5. When some message of the batch, at any position, has `id = 0`, `push`
does not succeed and the committed rows of the queue are those before the
call; unless `Begin` itself failed (then the call panics on the nil
transaction), what `push` returns is an error. -/
theorem push_zero_id_rejected (q : Q) (msgs : List Msg) (env : Env) (db : DB)
    (h : ∃ m ∈ msgs, m.ID = 0) :
    (q.push msgs env db).1 ≠ .ok () ∧
    (env.beginFails = false → ∃ e, (q.push msgs env db).1 = .error e) ∧
    (q.push msgs env db).2.rows = db.rows := by
  have hne : (q.push msgs env db).1 ≠ .ok () := by
    intro hok
    rw [push_ok_iff_loop, pushLoop_ok_iff] at hok
    obtain ⟨m, hm, hz⟩ := h
    exact hok.2.2.2.2.1 m hm hz
  exact ⟨hne, fun hb => push_error_of_not_ok q msgs env db hb hne,
    push_not_ok_rows q msgs env db hne⟩

/-- C9 (as the code has it). For every batch that `Push` persists, the rows
the call adds are one per message, in order, each with the id and with the
status the caller put in the message; a message built by `NewMsg` carries
Pending, and so is stored as Pending. -/
theorem push_stores_the_callers_status (q : Q) (msgs : List Msg) (env : Env) (db : DB)
    (h : (q.Push msgs env db).1 = .ok ()) :
    (∃ new, (q.Push msgs env db).2.rows = db.rows ++ new ∧
      List.Forall₂ (fun m r => r.id = m.ID ∧ r.status = m.Status) msgs new) ∧
    ∀ data, (NewMsg data).Status = MsgStatusPending := by
  refine ⟨?_, fun _ => rfl⟩
  obtain ⟨new, hnew, hall⟩ := pushLoop_ok env msgs 0 0 db.rows _ (push_ok_rows q msgs env db h)
  refine ⟨new, hnew, hall.imp ?_⟩
  rintro m r ⟨j, rfl⟩
  exact ⟨stamp_ID env j m, stamp_Status env j m⟩

end dbq

namespace dbq

/-! ## UpdateMsg -/

/-- The row after all the `SET` items built from `msg`, column by column. -/
theorem foldl_updateFields (m : Msg) (r : Row) :
    (updateFields m).foldl Assign.apply r =
      { id := r.id, data := r.data,
        status := if m.Status ≠ MsgStatusNil then m.Status else r.status,
        ret_code := if m.RetCode = none then r.ret_code else m.RetCode,
        progress := if m.Progress = none then r.progress else m.Progress,
        ret_data := if m.Ret = none then r.ret_data else m.Ret,
        error_msg := if m.Error = none then r.error_msg else m.Error,
        created_at := r.created_at, schedule_at := r.schedule_at,
        updated_at := r.updated_at } := by
  unfold updateFields
  cases h1 : m.RetCode <;> cases h2 : m.Progress <;> cases h3 : m.Ret <;> cases h4 : m.Error <;>
    by_cases h5 : m.Status = MsgStatusNil <;> simp [Assign.apply, h5]

theorem updateRow_other (dbNow : Time) (fields : List Assign) (id : Int) (r : Row)
    (h : r.id ≠ id) : updateRow dbNow fields id r = r := by
  simp [updateRow, h]

/-- The columns of the addressed row after the `UPDATE`. -/
theorem updateRow_cols (dbNow : Time) (m : Msg) (r : Row) (h : r.id = m.ID) :
    (updateRow dbNow (updateFields m) m.ID r).id = r.id ∧
    (updateRow dbNow (updateFields m) m.ID r).data = r.data ∧
    (updateRow dbNow (updateFields m) m.ID r).status =
      (if m.Status ≠ MsgStatusNil then m.Status else r.status) ∧
    (updateRow dbNow (updateFields m) m.ID r).ret_code =
      (if m.RetCode = none then r.ret_code else m.RetCode) ∧
    (updateRow dbNow (updateFields m) m.ID r).progress =
      (if m.Progress = none then r.progress else m.Progress) ∧
    (updateRow dbNow (updateFields m) m.ID r).ret_data =
      (if m.Ret = none then r.ret_data else m.Ret) ∧
    (updateRow dbNow (updateFields m) m.ID r).error_msg =
      (if m.Error = none then r.error_msg else m.Error) := by
  unfold updateRow
  rw [if_pos h]
  dsimp only
  by_cases hsame : (updateFields m).foldl Assign.apply r = r
  · rw [if_pos hsame]
    have := foldl_updateFields m r
    rw [hsame] at this
    refine ⟨rfl, rfl, ?_, ?_, ?_, ?_, ?_⟩
    · exact congrArg Row.status this
    · exact congrArg Row.ret_code this
    · exact congrArg Row.progress this
    · exact congrArg Row.ret_data this
    · exact congrArg Row.error_msg this
  · rw [if_neg hsame, foldl_updateFields]
    exact ⟨rfl, rfl, rfl, rfl, rfl, rfl, rfl⟩

theorem updateRow_id (dbNow : Time) (m : Msg) (r : Row) :
    (updateRow dbNow (updateFields m) m.ID r).id = r.id := by
  by_cases h : r.id = m.ID
  · exact (updateRow_cols dbNow m r h).1
  · rw [updateRow_other dbNow _ _ r h]

/-- The two ways `UpdateMsg` ends: an error and the rows as they were, or
success and the `UPDATE` applied to every row. -/
theorem UpdateMsg_cases (q : Q) (m : Msg) (env : Env) (db : DB) :
    ((q.UpdateMsg m env db).1 = .error .storage ∧ (q.UpdateMsg m env db).2.rows = db.rows) ∨
    ((q.UpdateMsg m env db).1 = .ok () ∧
      (q.UpdateMsg m env db).2.rows = db.rows.map (updateRow env.dbNow (updateFields m) m.ID)) := by
  unfold Q.UpdateMsg
  dsimp only
  by_cases h0 : (updateFields m).length = 0
  · right
    rw [if_pos h0]
    refine ⟨rfl, ?_⟩
    have hnil : updateFields m = [] := List.length_eq_zero.1 h0
    have hid : updateRow env.dbNow (updateFields m) m.ID = fun r => r := by
      funext r
      simp [updateRow, hnil]
    rw [hid, List.map_id']
  · rw [if_neg h0]
    by_cases h1 : env.execFails 0 = true
    · left
      rw [if_pos h1]
      exact ⟨rfl, rfl⟩
    · right
      rw [if_neg h1]
      exact ⟨rfl, rfl⟩

end dbq

namespace dbq

/-- C7. `UpdateMsg` keeps the rows in place with their ids and their data
column and leaves every row with another id as it was; in the row with id
`m.ID` each of the columns status, ret_code, progress, ret_data and error_msg
differs from before only if the matching field of `m` is supplied, and is then
the supplied value; when the call succeeds (it does whenever the `Exec` does
not fail) every supplied field is in its column.  An update that supplies none
of RetCode, Progress, Ret and Error leaves what `GetMsgByID` reports in these
four fields as it was, for every id. -/
theorem UpdateMsg_changes_supplied_only (q : Q) (m : Msg) (env : Env) (db : DB) :
    List.Forall₂ (fun r r2 =>
        r2.id = r.id ∧ r2.data = r.data ∧ (r.id ≠ m.ID → r2 = r) ∧
        (r2.status ≠ r.status → m.Status ≠ MsgStatusNil ∧ r2.status = m.Status) ∧
        (r2.ret_code ≠ r.ret_code → m.RetCode ≠ none ∧ r2.ret_code = m.RetCode) ∧
        (r2.progress ≠ r.progress → m.Progress ≠ none ∧ r2.progress = m.Progress) ∧
        (r2.ret_data ≠ r.ret_data → m.Ret ≠ none ∧ r2.ret_data = m.Ret) ∧
        (r2.error_msg ≠ r.error_msg → m.Error ≠ none ∧ r2.error_msg = m.Error) ∧
        ((q.UpdateMsg m env db).1 = .ok () → r.id = m.ID →
          (m.Status ≠ MsgStatusNil → r2.status = m.Status) ∧
          (m.RetCode ≠ none → r2.ret_code = m.RetCode) ∧
          (m.Progress ≠ none → r2.progress = m.Progress) ∧
          (m.Ret ≠ none → r2.ret_data = m.Ret) ∧
          (m.Error ≠ none → r2.error_msg = m.Error)))
      db.rows (q.UpdateMsg m env db).2.rows ∧
    (env.execFails 0 = false → (q.UpdateMsg m env db).1 = .ok ()) ∧
    (m.RetCode = none → m.Progress = none → m.Ret = none → m.Error = none →
      ∀ id env2 m1, q.GetMsgByID id env2 db = .ok m1 →
        ∃ m2, q.GetMsgByID id env2 (q.UpdateMsg m env db).2 = .ok m2 ∧
          m2.RetCode = m1.RetCode ∧ m2.Progress = m1.Progress ∧ m2.Ret = m1.Ret ∧
          m2.Error = m1.Error) := by
  refine ⟨?_, ?_, ?_⟩
  · rcases UpdateMsg_cases q m env db with ⟨herr, hrows⟩ | ⟨_, hrows⟩
    · rw [hrows, List.forall₂_same]
      intro r _
      simp [herr]
    · rw [hrows, List.forall₂_map_right_iff, List.forall₂_same]
      intro r _
      by_cases hid : r.id = m.ID
      · obtain ⟨h1, h2, h3, h4, h5, h6, h7⟩ := updateRow_cols env.dbNow m r hid
        rw [h1, h2, h3, h4, h5, h6, h7]
        refine ⟨rfl, rfl, fun hne => absurd hid hne, ?_, ?_, ?_, ?_, ?_, fun _ _ => ?_⟩
        · split_ifs <;> simp_all
        · split_ifs <;> simp_all
        · split_ifs <;> simp_all
        · split_ifs <;> simp_all
        · split_ifs <;> simp_all
        · refine ⟨?_, ?_, ?_, ?_, ?_⟩ <;> intro h <;> simp [h]
      · rw [updateRow_other env.dbNow _ _ r hid]
        simp [hid]
  · intro hexec
    rcases UpdateMsg_cases q m env db with ⟨herr, _⟩ | ⟨hok, _⟩
    · unfold Q.UpdateMsg at herr
      dsimp only at herr
      split_ifs at herr
      simp_all
    · exact hok
  · intro hc hp hr he id env2 m1 hget
    have hrows : (q.UpdateMsg m env db).2.rows =
        db.rows.map (updateRow env.dbNow (updateFields m) m.ID) ∨
        (q.UpdateMsg m env db).2.rows = db.rows := by
      rcases UpdateMsg_cases q m env db with ⟨_, h⟩ | ⟨_, h⟩
      · exact Or.inr h
      · exact Or.inl h
    rcases hrows with hrows | hrows
    · unfold Q.GetMsgByID at hget ⊢
      rw [hrows, List.find?_map]
      have hpred : ((fun r => r.id == id) ∘ updateRow env.dbNow (updateFields m) m.ID) =
          fun r : Row => r.id == id := by
        funext r
        simp [updateRow_id]
      rw [hpred]
      split at hget
      · simp at hget
      · cases hfind : db.rows.find? (fun r => r.id == id) with
        | none => simp [hfind] at hget
        | some r =>
          simp only [hfind, Option.map_some'] at hget ⊢
          split at hget
          · simp at hget
          · rename_i hq hs
            simp only [Outcome.ok.injEq] at hget
            refine ⟨scan (updateRow env.dbNow (updateFields m) m.ID r), by simp [hq, hs], ?_⟩
            rw [← hget]
            by_cases hid : r.id = m.ID
            · obtain ⟨_, _, _, h4, h5, h6, h7⟩ := updateRow_cols env.dbNow m r hid
              simp [scan, h4, h5, h6, h7, hc, hp, hr, he]
            · rw [updateRow_other env.dbNow _ _ r hid]
              exact ⟨rfl, rfl, rfl, rfl⟩
    · refine ⟨m1, ?_, rfl, rfl, rfl, rfl⟩
      unfold Q.GetMsgByID at hget ⊢
      rw [hrows]
      exact hget

end dbq

namespace dbq

/-! ## Transactions left open, the lock clause, and instances of the statements -/

/-- Where `push` leaves its transaction open: exactly when `Begin` and
`Prepare` went through and the loop ended in an error. -/
theorem push_openTx (q : Q) (msgs : List Msg) (env : Env) (db : DB) :
    ((q.push msgs env db).2.openTx = db.openTx + 1 ↔
      env.beginFails = false ∧ env.prepareFails = false ∧
        ∃ e, pushLoop env msgs 0 0 db.rows = .error e) ∧
    ((q.push msgs env db).2.openTx = db.openTx ∨
      (q.push msgs env db).2.openTx = db.openTx + 1) := by
  unfold Q.push
  cases hb : env.beginFails <;> cases hp : env.prepareFails <;> cases hc : env.commitFails <;>
    cases hl : pushLoop env msgs 0 0 db.rows <;>
    simp [DB.commit, DB.begin, DB.rollback, DB.commitFailed]

/-- C8 (the code at failing inputs). With no storage failure at all, `push` of
a batch holding a message with `id = 0`, and `push` of a batch that repeats an
id, return their error with the transaction they opened still open; so does
`pull` when a `Scan` fails. -/
theorem push_and_pull_leave_transaction_open :
    exQ.push [{ ID := 0 }] exEnv emptyDB = (.error .idRequired, { rows := [], openTx := 1 }) ∧
    exQ.push [{ ID := 4 }, { ID := 4 }] exEnv emptyDB =
      (.error .duplicateKey, { rows := [], openTx := 1 }) ∧
    exQ.pull 10 false exScanFailEnv exDB = (.error .storage, { exDB with openTx := 1 }) ∧
    exQ.pull 10 true exScanFailEnv exDB = (.error .storage, { exDB with openTx := 1 }) := by
  refine ⟨?_, ?_, ?_, ?_⟩ <;> decide

/-- C9 fails as stated: a message pushed with status Finished is stored with
status Finished, not Pending. -/
theorem push_stores_finished_status :
    (exQ.Push [{ ID := 7, Status := MsgStatusFinished }] exEnv emptyDB).1 = .ok () ∧
    (exQ.Push [{ ID := 7, Status := MsgStatusFinished }] exEnv emptyDB).2.rows.map
      (fun r => (r.id, r.status)) = [(7, MsgStatusFinished)] ∧
    MsgStatusFinished ≠ MsgStatusPending := by
  refine ⟨?_, ?_, ?_⟩ <;> decide

set_option maxRecDepth 100000 in
/-- C10 fails as stated: the statement a dry-run `pull` issues has an empty
lock clause, and its text does not contain `FOR UPDATE`. -/
theorem dry_run_select_without_for_update :
    (pullStmt exQ 10 true).lockClause = "" ∧
    ¬ ("FOR UPDATE".toList <:+: (pullStmt exQ 10 true).text.toList) := by
  constructor <;> decide

/-- C10 (as the code has it). For every queue name and limit, the `SELECT`
that `pull` issues carries `FOR UPDATE` as its lock clause exactly when
`dryrun` is false, and has an empty lock clause exactly when `dryrun` is
true; the text of the statement of a live pull contains `FOR UPDATE`. -/
theorem select_for_update_iff_live (q : Q) (L : Int) (dryrun : Bool) :
    ((pullStmt q L dryrun).lockClause = "FOR UPDATE" ↔ dryrun = false) ∧
    ((pullStmt q L dryrun).lockClause = "" ↔ dryrun = true) ∧
    (pullStmt q L dryrun).table = q.TableName ∧ (pullStmt q L dryrun).limit = L ∧
    "FOR UPDATE".toList <:+: (pullStmt q L false).text.toList := by
  refine ⟨?_, ?_, rfl, rfl, ?_⟩
  · cases dryrun <;> simp [pullStmt, forUpdate]
  · cases dryrun <;> simp [pullStmt, forUpdate]
  · simp only [SelectStmt.text, pullStmt, forUpdate, Bool.not_false, if_true, String.toList,
      String.data_append]
    exact ⟨_, _, rfl⟩

/-- The statement of C1 on the six-row queue, a live pull with limit `2` at
time `100`: of the four eligible rows the two scheduled at `30` come back. -/
theorem pull_returns_oldest_eligible_witness :
    (0 : Int) ≤ 2 ∧
    (exQ.pull 2 false exEnv exDB2).1 = .ok exPulled2 ∧
    (exDB2.rows.filter (fun r =>
      decide (r.status = MsgStatusPending ∧ r.schedule_at ≤ exEnv.clock 0))).length = 4 ∧
    ((exEnv.Healthy → ∃ msgs, (exQ.pull 2 false exEnv exDB2).1 = .ok msgs ∧
      msgs.length = min (2 : Int).toNat (exDB2.rows.filter (fun r =>
        decide (r.status = MsgStatusPending ∧ r.schedule_at ≤ exEnv.clock 0))).length) ∧
    ∀ msgs, (exQ.pull 2 false exEnv exDB2).1 = .ok msgs →
      msgs.length ≤ min (2 : Int).toNat (exDB2.rows.filter (fun r =>
        decide (r.status = MsgStatusPending ∧ r.schedule_at ≤ exEnv.clock 0))).length ∧
      (∀ m ∈ msgs, ∃ r ∈ exDB2.rows, r.status = MsgStatusPending ∧
        r.schedule_at ≤ exEnv.clock 0 ∧ scan r = { m with Status := MsgStatusPending }) ∧
      msgs.Pairwise (fun a b => a.ScheduleAt ≤ b.ScheduleAt) ∧
      (∀ r ∈ exDB2.rows, r.status = MsgStatusPending → r.schedule_at ≤ exEnv.clock 0 →
        r.id ∉ msgs.map (fun m => m.ID) → ∀ m ∈ msgs, m.ScheduleAt ≤ r.schedule_at) ∧
      ∃ sel rest, (sel ++ rest).Perm (exDB2.rows.filter (fun r =>
          decide (r.status = MsgStatusPending ∧ r.schedule_at ≤ exEnv.clock 0))) ∧
        List.Forall₂ (fun r m =>
            m.ID = r.id ∧ m.Data = r.data ∧
            m.Status = (if false then MsgStatusPending else MsgStatusDispatched) ∧
            m.RetCode = r.ret_code ∧ m.Progress = r.progress ∧ m.Ret = r.ret_data ∧
            m.Error = r.error_msg ∧ m.CreatedAt = r.created_at ∧
            m.ScheduleAt = r.schedule_at ∧ m.UpdatedAt = r.updated_at) sel msgs ∧
        ∀ x ∈ sel, ∀ r ∈ rest, x.schedule_at ≤ r.schedule_at) :=
  ⟨by decide, by decide, by decide,
    pull_returns_oldest_eligible exQ 2 false exEnv exDB2 (by decide)⟩

/-- The statement of C2 on the sample queue: the pull with limit `2` returns
the rows `2` and `1` and leaves row `3` Pending. -/
theorem live_pull_dispatches_exactly_returned_witness :
    exQ.pull 2 false exEnv exDB = (.ok exPulled, exDBAfterPull) ∧
    ((∀ m ∈ exPulled, m.Status = MsgStatusDispatched) ∧
    (∀ r2 ∈ exDBAfterPull.rows, r2.id ∈ exPulled.map (fun m => m.ID) →
      r2.status = MsgStatusDispatched) ∧
    List.Forall₂ (fun r r2 => r2.id = r.id ∧ (r.id ∉ exPulled.map (fun m => m.ID) → r2 = r))
      exDB.rows exDBAfterPull.rows) :=
  ⟨by decide, live_pull_dispatches_exactly_returned exQ 2 exEnv exDB exDBAfterPull exPulled
    (by decide)⟩

/-- The statement of C5 on a batch whose second message has `id = 0`, the
first one having a fresh id: the loop reaches the test of the id and `push`
returns its error. -/
theorem push_zero_id_rejected_witness :
    (∃ m ∈ [({ ID := 9 } : Msg), { ID := 0 }], m.ID = 0) ∧
    (exQ.push [{ ID := 9 }, { ID := 0 }] exEnv exDB).1 = .error .idRequired ∧
    ((exQ.push [{ ID := 9 }, { ID := 0 }] exEnv exDB).1 ≠ .ok () ∧
    (exEnv.beginFails = false →
      ∃ e, (exQ.push [{ ID := 9 }, { ID := 0 }] exEnv exDB).1 = .error e) ∧
    (exQ.push [{ ID := 9 }, { ID := 0 }] exEnv exDB).2.rows = exDB.rows) :=
  ⟨⟨{ ID := 0 }, by simp, rfl⟩, by decide,
    push_zero_id_rejected exQ [{ ID := 9 }, { ID := 0 }] exEnv exDB ⟨{ ID := 0 }, by simp, rfl⟩⟩

/-- The amended statement of C9 on a batch of a `NewMsg` message and one that
carries Failed. -/
theorem push_stores_the_callers_status_witness :
    (exQ.Push [{ NewMsg (some [9]) with ID := 7 }, { ID := 8, Status := MsgStatusFailed }]
      exEnv exDB).1 = .ok () ∧
    ((∃ new, (exQ.Push [{ NewMsg (some [9]) with ID := 7 }, { ID := 8, Status := MsgStatusFailed }]
        exEnv exDB).2.rows = exDB.rows ++ new ∧
      List.Forall₂ (fun m r => r.id = m.ID ∧ r.status = m.Status)
        [{ NewMsg (some [9]) with ID := 7 }, { ID := 8, Status := MsgStatusFailed }] new) ∧
    ∀ data, (NewMsg data).Status = MsgStatusPending) :=
  ⟨by decide, push_stores_the_callers_status exQ
    [{ NewMsg (some [9]) with ID := 7 }, { ID := 8, Status := MsgStatusFailed }] exEnv exDB
    (by decide)⟩

end dbq
